import Mathlib

/-!
Shallow embedding of the prompt parsers in `autobench.py` and `benchauto.py`
(repository `mlauto`).  Python strings are modelled as `List Char`; the three
regular expressions used by `parse_prompt` are embedded as executable scanners
that reproduce the Python `re` semantics (leftmost search, greedy and lazy
quantifiers, non-overlapping `finditer`) of the concrete patterns that appear
in the source.  ASCII character classes are used for `\w`, `\s`, `[A-Z]`,
`[A-Za-z]` and `[a-z_]`, matching the Python behaviour on ASCII input.
-/

abbrev Str := List Char

/-- Python `\s` (ASCII): the whitespace characters recognised by `re` and by
`str.strip`. -/
def isSpaceChar (c : Char) : Bool :=
  c = ' ' || c = '\t' || c = '\n' || c = '\r' || c = '\x0b' || c = '\x0c'

/-- Python `\w` (ASCII): letters, digits and underscore. -/
def isWordChar (c : Char) : Bool := c.isAlpha || c.isDigit || c = '_'

/-- The character class `[a-z_]` of the app-name pattern. -/
def isAppNameChar (c : Char) : Bool := c.isLower || c = '_'

/-- Python `str.strip()`. -/
def pyStrip (s : Str) : Str :=
  ((s.dropWhile isSpaceChar).reverse.dropWhile isSpaceChar).reverse

/-- Python `str.capitalize()` (ASCII): first character uppercased, all
remaining characters lowercased. -/
def pyCapitalize : Str → Str
  | [] => []
  | c :: cs => c.toUpper :: cs.map Char.toLower

/-- Python `str.replace(",", "\n")`. -/
def commaToNl (s : Str) : Str := s.map fun c => if c = ',' then '\n' else c

/-- Python `str.rstrip("]")`: remove every trailing `]`. -/
def pyRstripClose (s : Str) : Str := (s.reverse.dropWhile fun c => c == ']').reverse

/-- `startsWithL pat s` holds when `pat` is an initial segment of `s`. -/
def startsWithL : Str → Str → Bool
  | [], _ => true
  | _ :: _, [] => false
  | p :: ps, c :: cs => p == c && startsWithL ps cs

/-- First occurrence of `sep` in `s`: the text before it and the text after
it, or `none` when `sep` does not occur (`sep` is never empty here). -/
def findSplit (sep : Str) : Str → Option (Str × Str)
  | [] => none
  | c :: cs =>
    if startsWithL sep (c :: cs) then some ([], (c :: cs).drop sep.length)
    else
      match findSplit sep cs with
      | some (pre, post) => some (c :: pre, post)
      | none => none

/-- The literal marker `"with DocTypes:"`. -/
def markerStr : Str := ("with DocTypes:").data

/-- Python `prompt.split("with DocTypes:")[1]` when the marker occurs in
`prompt` (`none` when it does not): the text strictly between the first
occurrence of the marker and the next occurrence (or the end of the string). -/
def sectionAfterMarker (s : Str) : Option Str :=
  match findSplit markerStr s with
  | none => none
  | some (_, post) =>
    match findSplit markerStr post with
    | none => some post
    | some (pre2, _) => some pre2

/-- One attempt of `re.search(r"named\s+([a-z_]+)", ...)` at the start of `s`:
the literal `named`, one or more whitespace characters, then a maximal
non-empty run of `[a-z_]`, which is the captured group. -/
def matchAppNameAt (s : Str) : Option Str :=
  if s.take 5 = ("named").data then
    let r := s.drop 5
    if r.takeWhile isSpaceChar = [] then none
    else
      let nm := (r.dropWhile isSpaceChar).takeWhile isAppNameChar
      if nm = [] then none else some nm
  else none

/-- `re.search(r"named\s+([a-z_]+)", s)`: leftmost match, trying every start
position from the left. -/
def searchAppName : Str → Option Str
  | [] => none
  | c :: cs =>
    match matchAppNameAt (c :: cs) with
    | some nm => some nm
    | none => searchAppName cs

/-- The tail `(?:,|$)` of the DocType pattern, applied after the closing
parenthesis: a comma (consumed, first alternative), or the end of the string,
or the position just before a single trailing newline (Python `$` without
`re.MULTILINE`). -/
def afterClose (s : Str) : Option Str :=
  match s with
  | [] => some []
  | c :: rest =>
    if c = ',' then some rest
    else if c = '\n' ∧ rest = [] then some (c :: rest)
    else none

/-- The lazy part `(.*?)\)(?:,|$)` of the DocType pattern: the shortest run of
non-newline characters followed by `)` and then `afterClose`; returns the
captured body and the rest of the string after the whole match. -/
def matchBodyFrom : Str → Option (Str × Str)
  | [] => none
  | c :: rest =>
    if c = ')' then
      match afterClose rest with
      | some r => some ([], r)
      | none =>
        match matchBodyFrom rest with
        | some (b, r) => some (c :: b, r)
        | none => none
    else if c = '\n' then none
    else
      match matchBodyFrom rest with
      | some (b, r) => some (c :: b, r)
      | none => none

/-- One attempt of the pattern `([A-Z]\w+)\s*\((.*?)\)(?:,|$)` at the start of
`s`: returns the record-type name, the raw field body and the rest of the
string after the match. -/
def matchDoctypeAt (s : Str) : Option (Str × Str × Str) :=
  match s with
  | [] => none
  | c :: rest =>
    if c.isUpper then
      if rest.takeWhile isWordChar = [] then none
      else
        match (rest.dropWhile isWordChar).dropWhile isSpaceChar with
        | '(' :: r3 =>
          match matchBodyFrom r3 with
          | some (body, r4) => some (c :: rest.takeWhile isWordChar, body, r4)
          | none => none
        | _ => none
    else none

/-- `re.finditer` for the DocType pattern: scan left to right, and after a
match resume at the match end (`skip` counts positions still inside the
previous match). -/
def scanDoctypes : Str → Nat → List (Str × Str)
  | [], _ => []
  | c :: cs, skip =>
    if 0 < skip then scanDoctypes cs (skip - 1)
    else
      match matchDoctypeAt (c :: cs) with
      | some (nm, body, rest) => (nm, body) :: scanDoctypes cs (cs.length - rest.length)
      | none => scanDoctypes cs 0

/-- `re.finditer(doctype_pattern, s)` as a list of (name, raw body) pairs. -/
def doctypeMatches (s : Str) : List (Str × Str) := scanDoctypes s 0

/-- The optional group `(?:\[[^\]]*\])?` of the field pattern: at `r4` (the
text after the letters), an opening `[`, the maximal run of non-`]` characters
and a closing `]`.  Returns the bracket content and the rest, or `none` when
the group does not match (then it matches empty in the caller). -/
def bracketPart (r4 : Str) : Option (Str × Str) :=
  match r4 with
  | '[' :: r5 =>
    match r5.dropWhile (fun ch => ch != ']') with
    | ']' :: r7 => some (r5.takeWhile (fun ch => ch != ']'), r7)
    | _ => none
  | _ => none

/-- The type-token part `([A-Za-z]+(?:\[[^\]]*\])?)` of the field pattern at
the start of `s`: a maximal non-empty run of letters, optionally followed by a
bracketed option list `[...]` whose content is the maximal run of non-`]`
characters (if no closing `]` exists the optional group matches empty). -/
def matchFType (s : Str) : Option (Str × Str) :=
  if s.takeWhile Char.isAlpha = [] then none
  else
    match bracketPart (s.dropWhile Char.isAlpha) with
    | some (inner, r7) => some (s.takeWhile Char.isAlpha ++ '[' :: (inner ++ ([']'] : Str)), r7)
    | none => some (s.takeWhile Char.isAlpha, s.dropWhile Char.isAlpha)

/-- One attempt of the field pattern `(\w+):\s*([A-Za-z]+(?:\[[^\]]*\])?)` at
the start of `s`: the field name, the raw type token and the rest. -/
def matchFieldAt (s : Str) : Option (Str × Str × Str) :=
  match s with
  | [] => none
  | c :: rest =>
    if isWordChar c then
      match rest.dropWhile isWordChar with
      | ':' :: r2 =>
        match matchFType (r2.dropWhile isSpaceChar) with
        | some (ft, r) => some (c :: rest.takeWhile isWordChar, ft, r)
        | none => none
      | _ => none
    else none

/-- `re.finditer` for the field pattern. -/
def scanFields : Str → Nat → List (Str × Str)
  | [], _ => []
  | c :: cs, skip =>
    if 0 < skip then scanFields cs (skip - 1)
    else
      match matchFieldAt (c :: cs) with
      | some (fn, ft, rest) => (fn, ft) :: scanFields cs (cs.length - rest.length)
      | none => scanFields cs 0

/-- `re.finditer(field_pattern, s)` as a list of (name, raw type) pairs. -/
def fieldMatches (s : Str) : List (Str × Str) := scanFields s 0

/-- A parsed field dictionary.  `reqd` is `none` when the implementation does
not put a `"reqd"` key in the dictionary (`autobench.py`) and `some r` when it
does (`benchauto.py`); `options` is present only for bracketed types. -/
structure FieldDef where
  fieldname : Str
  label : Str
  fieldtype : Str
  reqd : Option Nat
  options : Option Str
deriving DecidableEq

/-- The five `ValueError`s of `parse_prompt`, one per `raise` site. -/
inductive ParseError where
  | missingAppName
  | missingDocTypeSection
  | noRecordTypesFound
  | noFieldsFound (doctype : Str)
  | noRecordTypesParsed
deriving DecidableEq

/-- The message attached to each error in the source. -/
def message : ParseError → Str
  | .missingAppName => ("App name not found in prompt").data
  | .missingDocTypeSection => ("No DocTypes specified in prompt").data
  | .noRecordTypesFound => ("No valid DocTypes found in prompt").data
  | .noFieldsFound d => ("No valid fields found for DocType: ").data ++ d
  | .noRecordTypesParsed => ("Failed to parse any DocTypes").data

/-- Truth value of a `re.finditer` result in a boolean context: `re.finditer`
returns an iterator object and any iterator object is truthy in Python,
whether or not it will yield matches.  Hence `if not doctype_matches:` in the
source can never take the raising branch. -/
def pyTruthy (_it : List (Str × Str)) : Bool := true

/-- The field dictionary built in the loop of `autobench.py` (lines 42-51):
no `"reqd"` key; `fieldtype`/`options` are rewritten when the raw type token
contains `[`. -/
def mkFieldAuto (fname ftype : Str) : FieldDef :=
  if '[' ∈ ftype then
    { fieldname := fname, label := pyCapitalize fname,
      fieldtype := ftype.takeWhile (fun ch => ch != '['),
      reqd := none,
      options := some (commaToNl (pyRstripClose ((ftype.dropWhile (fun ch => ch != '[')).drop 1))) }
  else
    { fieldname := fname, label := pyCapitalize fname, fieldtype := ftype,
      reqd := none, options := none }

/-- The field dictionary built in the loop of `benchauto.py` (lines 50-64):
as in `autobench.py` plus `"reqd": 1 if fname == "name" else 0`. -/
def mkFieldBench (fname ftype : Str) : FieldDef :=
  if '[' ∈ ftype then
    { fieldname := fname, label := pyCapitalize fname,
      fieldtype := ftype.takeWhile (fun ch => ch != '['),
      reqd := some (if fname = ("name").data then 1 else 0),
      options := some (commaToNl (pyRstripClose ((ftype.dropWhile (fun ch => ch != '[')).drop 1))) }
  else
    { fieldname := fname, label := pyCapitalize fname, fieldtype := ftype,
      reqd := some (if fname = ("name").data then 1 else 0), options := none }

/-- Python `dict` assignment `doctypes[name] = fields`: overwrite in place if
the key exists (keeping its original position), otherwise append. -/
def dictInsert (m : List (Str × List FieldDef)) (k : Str) (v : List FieldDef) :
    List (Str × List FieldDef) :=
  if k ∈ m.map Prod.fst then m.map (fun p => if p.1 = k then (k, v) else p)
  else m ++ [(k, v)]

/-- The `for match in doctype_matches:` loop: for each record-type match,
collect its field dictionaries, raise `NoFieldsFound` when there are none,
otherwise store them under the record-type name. -/
def buildDoctypes (mk : Str → Str → FieldDef) :
    List (Str × Str) → List (Str × List FieldDef) →
    Except ParseError (List (Str × List FieldDef))
  | [], acc => .ok acc
  | (nm, body) :: rest, acc =>
    if (fieldMatches body).map (fun q => mk q.1 q.2) = [] then .error (.noFieldsFound nm)
    else buildDoctypes mk rest (dictInsert acc nm ((fieldMatches body).map fun q => mk q.1 q.2))

/-- `parse_prompt`, parameterised by the field-dictionary builder (the only
difference between the two implementations). -/
def parseWith (mk : Str → Str → FieldDef) (prompt : Str) :
    Except ParseError (Str × List (Str × List FieldDef)) :=
  match searchAppName prompt with
  | none => .error .missingAppName
  | some app_name =>
    match sectionAfterMarker prompt with
    | none => .error .missingDocTypeSection
    | some sec =>
      if pyTruthy (doctypeMatches (pyStrip sec)) then
        match buildDoctypes mk (doctypeMatches (pyStrip sec)) [] with
        | .error e => .error e
        | .ok doctypes =>
          if doctypes = [] then .error .noRecordTypesParsed
          else .ok (app_name, doctypes)
      else .error .noRecordTypesFound

namespace Autobench

/-- `parse_prompt` of `autobench.py` (lines 17-62). -/
def parse_prompt : Str → Except ParseError (Str × List (Str × List FieldDef)) :=
  parseWith mkFieldAuto

end Autobench

namespace Benchauto

/-- `parse_prompt` of `benchauto.py` (lines 16-75). -/
def parse_prompt : Str → Except ParseError (Str × List (Str × List FieldDef)) :=
  parseWith mkFieldBench

end Benchauto

/-! ### Helper lemmas about the embedded Python string operations -/

theorem takeWhileAppend (p : Char → Bool) (l r : Str) (c : Char)
    (hl : ∀ x ∈ l, p x = true) (hc : p c = false) :
    (l ++ c :: r).takeWhile p = l := by
  induction l with
  | nil => simp [List.takeWhile_cons, hc]
  | cons a t ih =>
    have ha : p a = true := hl a (by simp)
    simp only [List.cons_append, List.takeWhile_cons_of_pos ha, List.cons.injEq, true_and]
    exact ih fun x hx => hl x (by simp [hx])

theorem dropWhileAppend (p : Char → Bool) (l r : Str) (c : Char)
    (hl : ∀ x ∈ l, p x = true) (hc : p c = false) :
    (l ++ c :: r).dropWhile p = c :: r := by
  induction l with
  | nil => simp [List.dropWhile_cons, hc]
  | cons a t ih =>
    have ha : p a = true := hl a (by simp)
    simp only [List.cons_append, List.dropWhile_cons_of_pos ha]
    exact ih fun x hx => hl x (by simp [hx])

theorem dropWhileAllFalse (p : Char → Bool) (l : Str) (h : ∀ x ∈ l, p x = false) :
    l.dropWhile p = l := by
  cases l with
  | nil => rfl
  | cons a t => simp [List.dropWhile_cons, h a (by simp)]

theorem pyRstripClose_append (inner : Str) (h : ']' ∉ inner) :
    pyRstripClose (inner ++ ([']'] : Str)) = inner := by
  unfold pyRstripClose
  have h1 : (inner ++ ([']'] : Str)).reverse = ']' :: inner.reverse := by simp
  rw [h1, List.dropWhile_cons_of_pos (by simp)]
  rw [dropWhileAllFalse _ inner.reverse (by
    intro x hx
    rw [List.mem_reverse] at hx
    simp only [beq_eq_false_iff_ne, ne_eq]
    exact fun e => h (e ▸ hx))]
  exact List.reverse_reverse inner

/-! ### Projections of the field-dictionary builders -/

theorem mkFieldAuto_fieldname (a b : Str) : (mkFieldAuto a b).fieldname = a := by
  unfold mkFieldAuto; split <;> rfl

theorem mkFieldBench_fieldname (a b : Str) : (mkFieldBench a b).fieldname = a := by
  unfold mkFieldBench; split <;> rfl

theorem mkFieldAuto_label (a b : Str) : (mkFieldAuto a b).label = pyCapitalize a := by
  unfold mkFieldAuto; split <;> rfl

theorem mkFieldBench_label (a b : Str) : (mkFieldBench a b).label = pyCapitalize a := by
  unfold mkFieldBench; split <;> rfl

theorem mkFieldAuto_reqd (a b : Str) : (mkFieldAuto a b).reqd = none := by
  unfold mkFieldAuto; split <;> rfl

theorem mkFieldBench_reqd (a b : Str) :
    (mkFieldBench a b).reqd = some (if a = ("name").data then 1 else 0) := by
  unfold mkFieldBench; split <;> rfl

theorem mkFieldAuto_bracket (fname base inner : Str) (hb : '[' ∉ base) (hi : ']' ∉ inner) :
    (mkFieldAuto fname (base ++ '[' :: (inner ++ ([']'] : Str)))).fieldtype = base ∧
    (mkFieldAuto fname (base ++ '[' :: (inner ++ ([']'] : Str)))).options =
      some (commaToNl inner) := by
  have hbp : ∀ x ∈ base, (x != '[') = true := by
    intro x hx
    simp only [bne_iff_ne, ne_eq]
    exact fun e => hb (e ▸ hx)
  have hmem : '[' ∈ base ++ '[' :: (inner ++ ([']'] : Str)) := by simp
  unfold mkFieldAuto
  rw [if_pos hmem]
  refine ⟨takeWhileAppend _ base _ '[' hbp (by simp), ?_⟩
  have h2 : ((base ++ '[' :: (inner ++ ([']'] : Str))).dropWhile (fun ch => ch != '[')).drop 1 =
      inner ++ ([']'] : Str) := by
    rw [dropWhileAppend _ base _ '[' hbp (by simp)]
    rfl
  simp only [h2, pyRstripClose_append inner hi]

theorem mkFieldBench_bracket (fname base inner : Str) (hb : '[' ∉ base) (hi : ']' ∉ inner) :
    (mkFieldBench fname (base ++ '[' :: (inner ++ ([']'] : Str)))).fieldtype = base ∧
    (mkFieldBench fname (base ++ '[' :: (inner ++ ([']'] : Str)))).options =
      some (commaToNl inner) := by
  have hbp : ∀ x ∈ base, (x != '[') = true := by
    intro x hx
    simp only [bne_iff_ne, ne_eq]
    exact fun e => hb (e ▸ hx)
  have hmem : '[' ∈ base ++ '[' :: (inner ++ ([']'] : Str)) := by simp
  unfold mkFieldBench
  rw [if_pos hmem]
  refine ⟨takeWhileAppend _ base _ '[' hbp (by simp), ?_⟩
  have h2 : ((base ++ '[' :: (inner ++ ([']'] : Str))).dropWhile (fun ch => ch != '[')).drop 1 =
      inner ++ ([']'] : Str) := by
    rw [dropWhileAppend _ base _ '[' hbp (by simp)]
    rfl
  simp only [h2, pyRstripClose_append inner hi]

theorem mkFieldAuto_nobracket (fname ftype : Str) (h : '[' ∉ ftype) :
    (mkFieldAuto fname ftype).options = none ∧ (mkFieldAuto fname ftype).fieldtype = ftype := by
  unfold mkFieldAuto; rw [if_neg h]; exact ⟨rfl, rfl⟩

theorem mkFieldBench_nobracket (fname ftype : Str) (h : '[' ∉ ftype) :
    (mkFieldBench fname ftype).options = none ∧ (mkFieldBench fname ftype).fieldtype = ftype := by
  unfold mkFieldBench; rw [if_neg h]; exact ⟨rfl, rfl⟩

/-! ### Shape of the type tokens produced by the field pattern -/

theorem bracketPart_inner (r4 inner r7 : Str) (h : bracketPart r4 = some (inner, r7)) :
    ']' ∉ inner := by
  unfold bracketPart at h
  split at h
  · split at h
    · cases h
      intro hx
      have := List.mem_takeWhile_imp hx
      simp at this
    · exact absurd h (by simp)
  · exact absurd h (by simp)

theorem matchFType_shape (s ft r : Str) (h : matchFType s = some (ft, r)) :
    ('[' ∉ ft ∧ ft ≠ []) ∨
    ∃ base inner : Str,
      ft = base ++ '[' :: (inner ++ ([']'] : Str)) ∧ '[' ∉ base ∧ ']' ∉ inner := by
  have halpha : '[' ∉ s.takeWhile Char.isAlpha := by
    intro hx
    have := List.mem_takeWhile_imp hx
    exact absurd this (by decide)
  unfold matchFType at h
  split at h
  · exact absurd h (by simp)
  · next hletters =>
    split at h
    · next inner r7 heq =>
      cases h
      exact Or.inr ⟨s.takeWhile Char.isAlpha, inner, rfl, halpha, bracketPart_inner _ _ _ heq⟩
    · cases h
      exact Or.inl ⟨halpha, hletters⟩

theorem matchFieldAt_shape (s fn ft r : Str) (h : matchFieldAt s = some (fn, ft, r)) :
    ('[' ∉ ft ∧ ft ≠ []) ∨
    ∃ base inner : Str,
      ft = base ++ '[' :: (inner ++ ([']'] : Str)) ∧ '[' ∉ base ∧ ']' ∉ inner := by
  unfold matchFieldAt at h
  split at h
  · exact absurd h (by simp)
  · split at h
    · split at h
      · split at h
        · next ft0 r0 heq =>
          cases h
          exact matchFType_shape _ _ _ heq
        · exact absurd h (by simp)
      · exact absurd h (by simp)
    · exact absurd h (by simp)

theorem mem_scanFields_shape :
    ∀ (s : Str) (k : Nat) (fn ft : Str), (fn, ft) ∈ scanFields s k →
      ('[' ∉ ft ∧ ft ≠ []) ∨
      ∃ base inner : Str,
        ft = base ++ '[' :: (inner ++ ([']'] : Str)) ∧ '[' ∉ base ∧ ']' ∉ inner := by
  intro s
  induction s with
  | nil => intro k fn ft h; simp [scanFields] at h
  | cons c cs ih =>
    intro k fn ft h
    simp only [scanFields] at h
    split at h
    · exact ih _ _ _ h
    · split at h
      · next fn0 ft0 rest0 heq =>
        rcases List.mem_cons.1 h with h1 | h2
        · have : fn0 = fn ∧ ft0 = ft := by
            constructor <;> [exact (Prod.mk.injEq .. ▸ h1.symm).1; exact (Prod.mk.injEq .. ▸ h1.symm).2]
          rcases this with ⟨rfl, rfl⟩
          exact matchFieldAt_shape _ _ _ _ heq
        · exact ih _ _ _ h2
      · exact ih _ _ _ h

theorem mem_fieldMatches_shape (body fn ft : Str) (h : (fn, ft) ∈ fieldMatches body) :
    ('[' ∉ ft ∧ ft ≠ []) ∨
    ∃ base inner : Str,
      ft = base ++ '[' :: (inner ++ ([']'] : Str)) ∧ '[' ∉ base ∧ ']' ∉ inner :=
  mem_scanFields_shape body 0 fn ft h

/-! ### The Python dict assignment -/

theorem mem_dictInsert (m : List (Str × List FieldDef)) (k : Str) (v : List FieldDef)
    (p : Str × List FieldDef) (h : p ∈ dictInsert m k v) : p ∈ m ∨ p = (k, v) := by
  unfold dictInsert at h
  split at h
  · rcases List.mem_map.1 h with ⟨q, hq, he⟩
    by_cases hqk : q.1 = k
    · rw [if_pos hqk] at he
      exact Or.inr he.symm
    · rw [if_neg hqk] at he
      exact Or.inl (he ▸ hq)
  · rcases List.mem_append.1 h with h1 | h1
    · exact Or.inl h1
    · exact Or.inr (by simpa using h1)

theorem dictInsert_ne_nil (m : List (Str × List FieldDef)) (k : Str) (v : List FieldDef) :
    dictInsert m k v ≠ [] := by
  unfold dictInsert
  split
  · next hk =>
    intro he
    rw [List.map_eq_nil_iff] at he
    subst he
    simp at hk
  · simp

theorem keys_dictInsert (m : List (Str × List FieldDef)) (k : Str) (v : List FieldDef) :
    (dictInsert m k v).map Prod.fst =
      if k ∈ m.map Prod.fst then m.map Prod.fst else m.map Prod.fst ++ [k] := by
  unfold dictInsert
  split
  · next hk =>
    rw [List.map_map]
    apply List.map_congr_left
    intro a _
    by_cases hak : a.1 = k
    · simp [hak]
    · simp [hak]
  · next hk =>
    simp

theorem nodupKeys_dictInsert (m : List (Str × List FieldDef)) (k : Str) (v : List FieldDef)
    (h : (m.map Prod.fst).Nodup) : ((dictInsert m k v).map Prod.fst).Nodup := by
  rw [keys_dictInsert]
  split
  · exact h
  · next hk =>
    refine List.nodup_append.2 ⟨h, List.nodup_singleton k, ?_⟩
    intro a ha hb
    rw [List.mem_singleton] at hb
    subst hb
    exact hk ha

theorem lookupOverwrite (m : List (Str × List FieldDef)) (k : Str) (v : List FieldDef)
    (hk : k ∈ m.map Prod.fst) :
    List.lookup k (m.map fun p => if p.1 = k then (k, v) else p) = some v := by
  induction m with
  | nil => simp at hk
  | cons p t ih =>
    obtain ⟨p1, p2⟩ := p
    by_cases hpk : p1 = k
    · simp only [List.map_cons, if_pos hpk, List.lookup_cons_self]
    · have hk' : k ∈ t.map Prod.fst := by
        rcases List.mem_map.1 hk with ⟨q, hq, he⟩
        rcases List.mem_cons.1 hq with h1 | h1
        · subst h1
          exact absurd he hpk
        · exact List.mem_map.2 ⟨q, h1, he⟩
      have hne : (k == p1) = false := beq_eq_false_iff_ne.2 fun e => hpk e.symm
      simp only [List.map_cons, if_neg hpk, List.lookup_cons, hne]
      exact ih hk'

theorem lookupAppendFresh (m : List (Str × List FieldDef)) (k : Str) (v : List FieldDef)
    (hk : k ∉ m.map Prod.fst) :
    List.lookup k (m ++ [(k, v)]) = some v := by
  rw [List.lookup_append]
  have h1 : List.lookup k m = none := by
    rw [List.lookup_eq_none_iff]
    intro p hp
    simp only [bne_iff_ne, ne_eq]
    exact fun e => hk (List.mem_map.2 ⟨p, hp, e.symm⟩)
  rw [h1, Option.none_or]
  exact List.lookup_cons_self

theorem lookup_dictInsert_self (m : List (Str × List FieldDef)) (k : Str) (v : List FieldDef) :
    List.lookup k (dictInsert m k v) = some v := by
  unfold dictInsert
  split
  · exact lookupOverwrite m k v ‹_›
  · exact lookupAppendFresh m k v ‹_›

theorem lookupOverwriteNe (m : List (Str × List FieldDef)) (k : Str) (v : List FieldDef)
    (n : Str) (hne : n ≠ k) :
    List.lookup n (m.map fun p => if p.1 = k then (k, v) else p) = List.lookup n m := by
  induction m with
  | nil => rfl
  | cons p t ih =>
    obtain ⟨p1, p2⟩ := p
    by_cases hpk : p1 = k
    · have hnk : (n == k) = false := beq_eq_false_iff_ne.2 hne
      have hnp1 : (n == p1) = false := beq_eq_false_iff_ne.2 fun e => hne (e.trans hpk)
      simp only [List.map_cons, if_pos hpk, List.lookup_cons, hnk, hnp1]
      exact ih
    · simp only [List.map_cons, if_neg hpk, List.lookup_cons]
      cases hnp : (n == p1) with
      | true => rfl
      | false => exact ih

theorem lookup_dictInsert_ne (m : List (Str × List FieldDef)) (k : Str) (v : List FieldDef)
    (n : Str) (hne : n ≠ k) :
    List.lookup n (dictInsert m k v) = List.lookup n m := by
  unfold dictInsert
  split
  · exact lookupOverwriteNe m k v n hne
  · rw [List.lookup_append]
    have h1 : List.lookup n ([(k, v)] : List (Str × List FieldDef)) = none := by
      have hne2 : (n == k) = false := beq_eq_false_iff_ne.2 hne
      simp [List.lookup_cons, hne2]
    rw [h1, Option.or_none]

/-! ### Properties of the record-type loop -/

theorem buildDoctypes_mem (mk : Str → Str → FieldDef) :
    ∀ (ms : List (Str × Str)) (acc out : List (Str × List FieldDef)),
      buildDoctypes mk ms acc = .ok out → ∀ p ∈ out,
        p ∈ acc ∨ ∃ m ∈ ms, p = (m.1, (fieldMatches m.2).map fun q => mk q.1 q.2) := by
  intro ms
  induction ms with
  | nil =>
    intro acc out h p hp
    simp only [buildDoctypes] at h
    cases h
    exact Or.inl hp
  | cons m rest ih =>
    intro acc out h p hp
    obtain ⟨nm, body⟩ := m
    simp only [buildDoctypes] at h
    split at h
    · exact absurd h (by simp)
    · rcases ih _ _ h p hp with h1 | ⟨m2, hm2, he⟩
      · rcases mem_dictInsert _ _ _ _ h1 with h2 | h2
        · exact Or.inl h2
        · exact Or.inr ⟨(nm, body), by simp, by simpa using h2⟩
      · exact Or.inr ⟨m2, by simp [hm2], he⟩

theorem buildDoctypes_values (mk : Str → Str → FieldDef) :
    ∀ (ms : List (Str × Str)) (acc out : List (Str × List FieldDef)),
      buildDoctypes mk ms acc = .ok out → (∀ p ∈ acc, p.2 ≠ []) →
      ∀ p ∈ out, p.2 ≠ [] := by
  intro ms
  induction ms with
  | nil =>
    intro acc out h hacc p hp
    simp only [buildDoctypes] at h
    cases h
    exact hacc p hp
  | cons m rest ih =>
    intro acc out h hacc p hp
    obtain ⟨nm, body⟩ := m
    simp only [buildDoctypes] at h
    split at h
    · exact absurd h (by simp)
    · next hfe =>
      refine ih _ _ h ?_ p hp
      intro q hq
      rcases mem_dictInsert _ _ _ _ hq with h2 | h2
      · exact hacc q h2
      · rw [h2]
        exact hfe

theorem buildDoctypes_acc_ne_nil (mk : Str → Str → FieldDef) :
    ∀ (ms : List (Str × Str)) (acc out : List (Str × List FieldDef)),
      buildDoctypes mk ms acc = .ok out → acc ≠ [] → out ≠ [] := by
  intro ms
  induction ms with
  | nil =>
    intro acc out h hacc
    simp only [buildDoctypes] at h
    cases h
    exact hacc
  | cons m rest ih =>
    intro acc out h hacc
    obtain ⟨nm, body⟩ := m
    simp only [buildDoctypes] at h
    split at h
    · exact absurd h (by simp)
    · exact ih _ _ h (dictInsert_ne_nil _ _ _)

theorem buildDoctypes_nodup (mk : Str → Str → FieldDef) :
    ∀ (ms : List (Str × Str)) (acc out : List (Str × List FieldDef)),
      buildDoctypes mk ms acc = .ok out → (acc.map Prod.fst).Nodup →
      (out.map Prod.fst).Nodup := by
  intro ms
  induction ms with
  | nil =>
    intro acc out h hacc
    simp only [buildDoctypes] at h
    cases h
    exact hacc
  | cons m rest ih =>
    intro acc out h hacc
    obtain ⟨nm, body⟩ := m
    simp only [buildDoctypes] at h
    split at h
    · exact absurd h (by simp)
    · exact ih _ _ h (nodupKeys_dictInsert _ _ _ hacc)

theorem buildDoctypes_isOk (mk : Str → Str → FieldDef) :
    ∀ (ms : List (Str × Str)), (∀ m ∈ ms, fieldMatches m.2 ≠ []) →
      ∀ acc, ∃ out, buildDoctypes mk ms acc = .ok out := by
  intro ms
  induction ms with
  | nil => exact fun _ acc => ⟨acc, rfl⟩
  | cons m rest ih =>
    intro hms acc
    obtain ⟨nm, body⟩ := m
    have h1 : fieldMatches body ≠ [] := hms (nm, body) (by simp)
    rcases ih (fun q hq => hms q (by simp [hq])) (dictInsert acc nm ((fieldMatches body).map fun q => mk q.1 q.2)) with ⟨out, hout⟩
    refine ⟨out, ?_⟩
    simp only [buildDoctypes]
    rw [if_neg (by simpa using h1)]
    exact hout

theorem buildDoctypes_error_at (mk : Str → Str → FieldDef) :
    ∀ (ms1 : List (Str × Str)) (nm body : Str) (ms2 : List (Str × Str))
      (acc : List (Str × List FieldDef)),
      (∀ m ∈ ms1, fieldMatches m.2 ≠ []) → fieldMatches body = [] →
      buildDoctypes mk (ms1 ++ (nm, body) :: ms2) acc = .error (.noFieldsFound nm) := by
  intro ms1
  induction ms1 with
  | nil =>
    intro nm body ms2 acc _ h2
    simp only [List.nil_append, buildDoctypes]
    rw [if_pos (by simp [h2])]
  | cons m rest ih =>
    intro nm body ms2 acc h1 h2
    obtain ⟨n1, b1⟩ := m
    simp only [List.cons_append, buildDoctypes]
    rw [if_neg (by simpa using h1 (n1, b1) (by simp))]
    exact ih nm body ms2 _ (fun q hq => h1 q (by simp [hq])) h2

theorem buildDoctypes_append_eq (mk : Str → Str → FieldDef) :
    ∀ (ms : List (Str × Str)) (acc out : List (Str × List FieldDef)),
      buildDoctypes mk ms acc = .ok out →
      (ms.map Prod.fst).Nodup →
      (∀ n ∈ ms.map Prod.fst, n ∉ acc.map Prod.fst) →
      out = acc ++ ms.map fun m => (m.1, (fieldMatches m.2).map fun q => mk q.1 q.2) := by
  intro ms
  induction ms with
  | nil =>
    intro acc out h _ _
    simp only [buildDoctypes] at h
    cases h
    simp
  | cons m rest ih =>
    intro acc out h hnd hdisj
    obtain ⟨nm, body⟩ := m
    simp only [buildDoctypes] at h
    split at h
    · exact absurd h (by simp)
    · have hfresh : nm ∉ acc.map Prod.fst := hdisj nm (by simp)
      have hins : dictInsert acc nm ((fieldMatches body).map fun q => mk q.1 q.2) =
          acc ++ [(nm, (fieldMatches body).map fun q => mk q.1 q.2)] := by
        unfold dictInsert
        rw [if_neg hfresh]
      rw [hins] at h
      have hnd' : (rest.map Prod.fst).Nodup := (List.nodup_cons.1 (by simpa using hnd)).2
      have hnm : nm ∉ rest.map Prod.fst := (List.nodup_cons.1 (by simpa using hnd)).1
      have hdisj' : ∀ n ∈ rest.map Prod.fst,
          n ∉ (acc ++ [(nm, (fieldMatches body).map fun q => mk q.1 q.2)]).map Prod.fst := by
        intro n hn
        rw [List.map_append, List.mem_append]
        rintro (ha | hb)
        · exact hdisj n (by simp [hn]) ha
        · simp only [List.map_cons, List.map_nil, List.mem_singleton] at hb
          exact hnm (hb ▸ hn)
      have := ih _ _ h hnd' hdisj'
      rw [this, List.map_cons, List.append_assoc]
      rfl

theorem buildDoctypes_ne_nil (mk : Str → Str → FieldDef) (ms : List (Str × Str))
    (out : List (Str × List FieldDef)) (h : buildDoctypes mk ms [] = .ok out)
    (hms : ms ≠ []) : out ≠ [] := by
  cases ms with
  | nil => exact absurd rfl hms
  | cons m rest =>
    obtain ⟨nm, body⟩ := m
    simp only [buildDoctypes] at h
    split at h
    · exact absurd h (by simp)
    · exact buildDoctypes_acc_ne_nil mk rest _ out h (dictInsert_ne_nil _ _ _)

theorem buildDoctypes_lookup (mk : Str → Str → FieldDef) :
    ∀ (ms : List (Str × Str)) (acc out : List (Str × List FieldDef)),
      buildDoctypes mk ms acc = .ok out → ∀ n : Str,
      List.lookup n out =
        match ms.reverse.find? (fun m => m.1 == n) with
        | some m => some ((fieldMatches m.2).map fun q => mk q.1 q.2)
        | none => List.lookup n acc := by
  intro ms
  induction ms with
  | nil =>
    intro acc out h n
    simp only [buildDoctypes] at h
    cases h
    rfl
  | cons m rest ih =>
    intro acc out h n
    obtain ⟨nm, body⟩ := m
    simp only [buildDoctypes] at h
    split at h
    · exact absurd h (by simp)
    · rw [ih _ _ h n, List.reverse_cons, List.find?_append]
      cases hf : rest.reverse.find? (fun m => m.1 == n) with
      | some m2 => simp
      | none =>
        simp only [Option.none_or]
        by_cases hnn : nm = n
        · rw [List.find?_cons_of_pos _ (by simp [hnn])]
          rw [← hnn]
          exact lookup_dictInsert_self acc nm _
        · rw [List.find?_cons_of_neg _ (by simp [hnn]), List.find?_nil]
          exact lookup_dictInsert_ne acc nm _ n fun e => hnn e.symm

theorem countOneOfNodupMem (l : List Str) (n : Str) (h : l.Nodup) (hm : n ∈ l) :
    l.count n = 1 := by
  induction l with
  | nil => simp at hm
  | cons a t ih =>
    rw [List.count_cons]
    rcases List.mem_cons.1 hm with h1 | hmt
    · subst h1
      have hnt : n ∉ t := (List.nodup_cons.1 h).1
      have hz : t.count n = 0 := List.count_eq_zero.2 hnt
      simp [hz]
    · have hat : a ∉ t := (List.nodup_cons.1 h).1
      have hna : n ≠ a := fun e => hat (e ▸ hmt)
      have han : (a == n) = false := beq_eq_false_iff_ne.2 fun e => hna e.symm
      rw [ih (List.nodup_cons.1 h).2 hmt, han]
      rfl

theorem lookup_some_keys (l : List (Str × List FieldDef)) (n : Str) (v : List FieldDef)
    (h : List.lookup n l = some v) : n ∈ l.map Prod.fst := by
  rcases List.lookup_eq_some_iff.1 h with ⟨l1, l2, he, _⟩
  subst he
  simp

/-! ### Unfolding `parseWith` -/

theorem parseWith_eq_build (mk : Str → Str → FieldDef) (prompt app sec : Str)
    (happ : searchAppName prompt = some app)
    (hsec : sectionAfterMarker prompt = some sec) :
    parseWith mk prompt =
      match buildDoctypes mk (doctypeMatches (pyStrip sec)) [] with
      | .error e => .error e
      | .ok dts => if dts = [] then .error .noRecordTypesParsed else .ok (app, dts) := by
  unfold parseWith
  rw [happ, hsec]
  rfl

theorem parseWith_ok_elim (mk : Str → Str → FieldDef) (prompt app : Str)
    (dts : List (Str × List FieldDef)) (h : parseWith mk prompt = .ok (app, dts)) :
    searchAppName prompt = some app ∧
    ∃ sec, sectionAfterMarker prompt = some sec ∧
      buildDoctypes mk (doctypeMatches (pyStrip sec)) [] = .ok dts ∧ dts ≠ [] := by
  unfold parseWith at h
  split at h
  · exact absurd h (by simp)
  · next app0 happ =>
    split at h
    · exact absurd h (by simp)
    · next sec0 hsec =>
      split at h
      · split at h
        · exact absurd h (by simp)
        · next dts0 hbuild =>
          split at h
          · exact absurd h (by simp)
          · next hne =>
            rw [Except.ok.injEq, Prod.mk.injEq] at h
            obtain ⟨rfl, rfl⟩ := h
            exact ⟨happ, sec0, hsec, hbuild, hne⟩
      · exact absurd h (by simp)

/-! ### Concrete inputs -/

/-- The library example from the spec (§8). -/
def exLibrary : Str := ("Create an app named library_app with DocTypes: Article (title: Data, status: Select[Issued,Available]), Member (name: Data, membership_date: Date)").data

/-- The DocType section of `exLibrary` (before `strip`). -/
def exLibrarySec : Str := (" Article (title: Data, status: Select[Issued,Available]), Member (name: Data, membership_date: Date)").data

/-- The record-type map `benchauto.py` produces for `exLibrary`. -/
def libTypesBench : List (Str × List FieldDef) :=
  [(("Article").data,
    [⟨("title").data, ("Title").data, ("Data").data, some 0, none⟩,
     ⟨("status").data, ("Status").data, ("Select").data, some 0, some ("Issued\nAvailable").data⟩]),
   (("Member").data,
    [⟨("name").data, ("Name").data, ("Data").data, some 1, none⟩,
     ⟨("membership_date").data, ("Membership_date").data, ("Date").data, some 0, none⟩])]

/-- The record-type map `autobench.py` produces for `exLibrary`: identical
except that no field dictionary has a required attribute. -/
def libTypesAuto : List (Str × List FieldDef) :=
  [(("Article").data,
    [⟨("title").data, ("Title").data, ("Data").data, none, none⟩,
     ⟨("status").data, ("Status").data, ("Select").data, none, some ("Issued\nAvailable").data⟩]),
   (("Member").data,
    [⟨("name").data, ("Name").data, ("Data").data, none, none⟩,
     ⟨("membership_date").data, ("Membership_date").data, ("Date").data, none, none⟩])]

/-- A one-record-type prompt whose only field is literally named "name". -/
def exTiny : Str := ("app named x with DocTypes: Ab (name: Data)").data

/-- The field dictionary `benchauto.py` builds for the field of `exTiny`. -/
def exTinyField : FieldDef := ⟨("name").data, ("Name").data, ("Data").data, some 1, none⟩

/-- A prompt with app name and marker but no record-type match after it. -/
def exNoTypes : Str := ("Create an app named foo with DocTypes: just lowercase words").data

/-- A prompt whose record-type body is empty (spec §8 example). -/
def exEmptyBody : Str := ("Create an app named x with DocTypes: Empty ()").data

/-- A prompt with an uppercase letter inside a field name. -/
def exMixed : Str := ("Create an app named x with DocTypes: Ty (aB: Data)").data

/-- A prompt in which the record-type name `Ab` matches twice. -/
def exDup : Str := ("named x with DocTypes: Ab (a: Data), Ab (b: Data)").data

/-! ### The claims -/

/-- C3 (amended): on the library example both parsers return application name
"library_app" and record types Article then Member with the stated field
names, labels, types and options; `required = 1` for field `name` (and `0`
elsewhere) holds in `benchauto.py`'s result, while `autobench.py`'s field
dictionaries carry no required attribute at all. -/
theorem C3_library_example :
    Benchauto.parse_prompt exLibrary = .ok (("library_app").data, libTypesBench) ∧
    Autobench.parse_prompt exLibrary = .ok (("library_app").data, libTypesAuto) :=
  ⟨rfl, rfl⟩

/-- C3 counterexample: in `autobench.py`'s parse of the library example the
`Member` field `name` has no required attribute (`reqd = none`), refuting the
claimed `required = true` for that implementation. -/
theorem C3_counterexample :
    ((Autobench.parse_prompt exLibrary).toOption.bind
        fun r => List.lookup (("Member").data) r.2).map
        (fun fs => fs.map fun f => (f.fieldname, f.reqd)) =
      some [(("name").data, (none : Option Nat)), (("membership_date").data, none)] :=
  rfl

/-- C2: on a prompt that has an app name and the marker but no record-type
match after it, both implementations raise "Failed to parse any DocTypes"
(`NoRecordTypesParsed`), not "No valid DocTypes found in prompt"
(`NoRecordTypesFound`): the source's `if not doctype_matches:` tests a
`re.finditer` iterator object, which is always truthy, so the
`NoRecordTypesFound` branch is dead code. -/
theorem C2_deadNoRecordTypesFound :
    Autobench.parse_prompt exNoTypes = .error .noRecordTypesParsed ∧
    Benchauto.parse_prompt exNoTypes = .error .noRecordTypesParsed ∧
    message .noRecordTypesParsed = ("Failed to parse any DocTypes").data ∧
    message .noRecordTypesFound = ("No valid DocTypes found in prompt").data :=
  ⟨rfl, rfl, rfl, rfl⟩

/-- C9: `parse_prompt` is deterministic — any two results of parsing the same
string, for either implementation, are equal as values (so the order of
record types and of fields is identical as well). -/
theorem C9_deterministic (prompt : Str)
    (r1 r2 s1 s2 : Except ParseError (Str × List (Str × List FieldDef)))
    (h1 : Autobench.parse_prompt prompt = r1) (h2 : Autobench.parse_prompt prompt = r2)
    (h3 : Benchauto.parse_prompt prompt = s1) (h4 : Benchauto.parse_prompt prompt = s2) :
    r1 = r2 ∧ s1 = s2 :=
  ⟨h1.symm.trans h2, h3.symm.trans h4⟩

theorem C9_deterministic_witness :
    Autobench.parse_prompt exTiny = Autobench.parse_prompt exTiny ∧
    Benchauto.parse_prompt exTiny = Benchauto.parse_prompt exTiny :=
  C9_deterministic exTiny _ _ _ _ rfl rfl rfl rfl

/-- Every field dictionary in a successful parse is built by the field-builder
from some field match. -/
theorem parseWith_field_ex (mk : Str → Str → FieldDef) (prompt app : Str)
    (dts : List (Str × List FieldDef)) (h : parseWith mk prompt = .ok (app, dts)) :
    ∀ d ∈ dts, ∀ f ∈ d.2, ∃ q : Str × Str, f = mk q.1 q.2 := by
  intro d hd f hf
  rcases parseWith_ok_elim mk prompt app dts h with ⟨_, sec, _, hbuild, _⟩
  rcases buildDoctypes_mem mk _ _ _ hbuild d hd with h1 | ⟨m, _, he⟩
  · simp at h1
  · rw [he] at hf
    rcases List.mem_map.1 hf with ⟨q, _, hqe⟩
    exact ⟨q, hqe.symm⟩

/-- C1 (amended): every field dictionary in the record-type map returned by
`benchauto.py`'s `parse_prompt` has the required attribute present, equal to 1
exactly when the field name is the literal "name" and 0 otherwise, while
`autobench.py`'s `parse_prompt` never puts a required attribute in its field
dictionaries. -/
theorem C1_required_amended :
    (∀ (prompt app : Str) (dts : List (Str × List FieldDef)),
        Benchauto.parse_prompt prompt = .ok (app, dts) →
        ∀ d ∈ dts, ∀ f ∈ d.2,
          f.reqd = some (if f.fieldname = ("name").data then 1 else 0)) ∧
    (∀ (prompt app : Str) (dts : List (Str × List FieldDef)),
        Autobench.parse_prompt prompt = .ok (app, dts) →
        ∀ d ∈ dts, ∀ f ∈ d.2, f.reqd = none) := by
  constructor
  · intro prompt app dts h d hd f hf
    rcases parseWith_field_ex mkFieldBench prompt app dts h d hd f hf with ⟨q, rfl⟩
    rw [mkFieldBench_reqd, mkFieldBench_fieldname]
  · intro prompt app dts h d hd f hf
    rcases parseWith_field_ex mkFieldAuto prompt app dts h d hd f hf with ⟨q, rfl⟩
    exact mkFieldAuto_reqd q.1 q.2

theorem C1_required_witness :
    exTinyField.reqd = some (if exTinyField.fieldname = ("name").data then 1 else 0) :=
  C1_required_amended.1 exTiny (("x").data) [((("Ab").data), [exTinyField])] rfl
    ((("Ab").data), [exTinyField]) (by simp) exTinyField (by simp)

/-- C1 counterexample: `autobench.py`'s `parse_prompt`, on a prompt whose only
field is literally named "name", returns a field dictionary with no required
attribute at all (`reqd = none`) — the required attribute is not present in
that implementation's output. -/
theorem C1_counterexample :
    ((Autobench.parse_prompt exTiny).toOption.map
        fun r => r.2.map fun d => d.2.map fun f => (f.fieldname, f.reqd)) =
      some [[(("name").data, (none : Option Nat))]] :=
  rfl

/-- C8 (amended): every parsed field's display label is the Python
`str.capitalize()` of its field name — first character uppercased and every
later character lowercased; this equals plain first-letter capitalisation
only when the characters after the first are already lowercase. -/
theorem C8_label_amended :
    (∀ (prompt app : Str) (dts : List (Str × List FieldDef)),
        Autobench.parse_prompt prompt = .ok (app, dts) →
        ∀ d ∈ dts, ∀ f ∈ d.2, f.label = pyCapitalize f.fieldname) ∧
    (∀ (prompt app : Str) (dts : List (Str × List FieldDef)),
        Benchauto.parse_prompt prompt = .ok (app, dts) →
        ∀ d ∈ dts, ∀ f ∈ d.2, f.label = pyCapitalize f.fieldname) := by
  constructor
  · intro prompt app dts h d hd f hf
    rcases parseWith_field_ex mkFieldAuto prompt app dts h d hd f hf with ⟨q, rfl⟩
    rw [mkFieldAuto_label, mkFieldAuto_fieldname]
  · intro prompt app dts h d hd f hf
    rcases parseWith_field_ex mkFieldBench prompt app dts h d hd f hf with ⟨q, rfl⟩
    rw [mkFieldBench_label, mkFieldBench_fieldname]

theorem C8_label_witness :
    exTinyField.label = pyCapitalize exTinyField.fieldname :=
  C8_label_amended.2 exTiny (("x").data) [((("Ab").data), [exTinyField])] rfl
    ((("Ab").data), [exTinyField]) (by simp) exTinyField (by simp)

/-- C8 counterexample: for the field name "aB" the produced label is "Ab":
Python `capitalize` lowercases the characters after the first, so the label's
tail differs from the field name's tail, refuting "the characters after the
first are the characters of the field name". -/
theorem C8_counterexample :
    ((Autobench.parse_prompt exMixed).toOption.map
        fun r => r.2.map fun d => d.2.map fun f => (f.fieldname, f.label)) =
      some [[(("aB").data, ("Ab").data)]] ∧
    (("Ab").data).drop 1 ≠ (("aB").data).drop 1 :=
  ⟨rfl, by decide⟩

/-- C6: whenever `parse_prompt` (either implementation: `parseWith` with any
field builder) returns a descriptor, the record-type map is non-empty and
every record type in it has a non-empty field list; any failure is one of the
five fatal `ParseError`s by the type of the result, and no state survives a
call since the parser is a pure function. -/
theorem C6_atomic_success (mk : Str → Str → FieldDef) (prompt app : Str)
    (dts : List (Str × List FieldDef)) (h : parseWith mk prompt = .ok (app, dts)) :
    dts ≠ [] ∧ ∀ d ∈ dts, d.2 ≠ [] := by
  rcases parseWith_ok_elim mk prompt app dts h with ⟨_, sec, _, hbuild, hne⟩
  exact ⟨hne, buildDoctypes_values mk _ _ _ hbuild (by simp)⟩

theorem C6_atomic_witness : [((("Ab").data : Str), [exTinyField])] ≠ [] :=
  (C6_atomic_success mkFieldBench exTiny (("x").data) [((("Ab").data), [exTinyField])] rfl).1

/-- C4: for every field match, if the raw type token contains `[` then the
token decomposes as `base ++ "[" ++ inner ++ "]"` with no `[` in `base` and no
`]` in `inner`, and for any such decomposition both field builders store
`fieldtype = base` (the text before the first `[`) and `options = inner` (the
bracketed list with the trailing `]` removed) with every comma replaced by a
newline; if the token contains no `[`, neither builder stores an options
attribute. -/
theorem C4_options (body fname ftype : Str) (h : (fname, ftype) ∈ fieldMatches body) :
    ('[' ∈ ftype →
      ∃ base inner : Str,
        ftype = base ++ '[' :: (inner ++ ([']'] : Str)) ∧ '[' ∉ base ∧ ']' ∉ inner) ∧
    (∀ base inner : Str,
      ftype = base ++ '[' :: (inner ++ ([']'] : Str)) → '[' ∉ base → ']' ∉ inner →
      (mkFieldAuto fname ftype).fieldtype = base ∧
      (mkFieldAuto fname ftype).options = some (commaToNl inner) ∧
      (mkFieldBench fname ftype).fieldtype = base ∧
      (mkFieldBench fname ftype).options = some (commaToNl inner)) ∧
    ('[' ∉ ftype →
      (mkFieldAuto fname ftype).options = none ∧
      (mkFieldBench fname ftype).options = none) := by
  refine ⟨?_, ?_, ?_⟩
  · intro hbr
    rcases mem_fieldMatches_shape body fname ftype h with ⟨hno, _⟩ | hs
    · exact absurd hbr hno
    · exact hs
  · intro base inner he hb hi
    subst he
    rcases mkFieldAuto_bracket fname base inner hb hi with ⟨h1, h2⟩
    rcases mkFieldBench_bracket fname base inner hb hi with ⟨h3, h4⟩
    exact ⟨h1, h2, h3, h4⟩
  · intro hno
    exact ⟨(mkFieldAuto_nobracket fname ftype hno).1, (mkFieldBench_nobracket fname ftype hno).1⟩

theorem C4_options_witness :
    (mkFieldAuto (("a").data) (("Sel[x,y]").data)).fieldtype = ("Sel").data ∧
    (mkFieldAuto (("a").data) (("Sel[x,y]").data)).options = some (("x\ny").data) ∧
    (mkFieldBench (("a").data) (("Sel[x,y]").data)).fieldtype = ("Sel").data ∧
    (mkFieldBench (("a").data) (("Sel[x,y]").data)).options = some (("x\ny").data) :=
  (C4_options (("a: Sel[x,y]").data) (("a").data) (("Sel[x,y]").data) (by decide)).2.1
    (("Sel").data) (("x,y").data) (by decide) (by decide) (by decide)

/-- C5: when `parse_prompt` succeeds and the textually matched record-type
names are pairwise distinct (the spec's "names must be unique within one
parse"), the returned map has exactly one entry per record-type match, in
order, and each entry's field-list length equals the number of field matches
in that record type's raw body text. -/
theorem C5_roundtrip_counts (mk : Str → Str → FieldDef) (prompt sec app : Str)
    (dts : List (Str × List FieldDef))
    (hsec : sectionAfterMarker prompt = some sec)
    (hnd : ((doctypeMatches (pyStrip sec)).map Prod.fst).Nodup)
    (hok : parseWith mk prompt = .ok (app, dts)) :
    dts.length = (doctypeMatches (pyStrip sec)).length ∧
    ∀ (i : Nat) (h1 : i < dts.length) (h2 : i < (doctypeMatches (pyStrip sec)).length),
      (dts.get ⟨i, h1⟩).2.length =
        (fieldMatches ((doctypeMatches (pyStrip sec)).get ⟨i, h2⟩).2).length := by
  rcases parseWith_ok_elim mk prompt app dts hok with ⟨_, sec2, hsec2, hbuild, _⟩
  rw [hsec] at hsec2
  obtain rfl : sec2 = sec := (Option.some.inj hsec2).symm
  have heq := buildDoctypes_append_eq mk _ [] dts hbuild hnd (by simp)
  rw [List.nil_append] at heq
  subst heq
  refine ⟨by rw [List.length_map], ?_⟩
  intro i h1 h2
  simp [List.get_eq_getElem, List.getElem_map]

theorem C5_roundtrip_witness :
    libTypesBench.length = (doctypeMatches (pyStrip exLibrarySec)).length :=
  (C5_roundtrip_counts mkFieldBench exLibrary exLibrarySec (("library_app").data)
    libTypesBench rfl (by decide) rfl).1

/-- C7: if the app name and the marker are present and `(nm, body)` is the
first record-type match whose body has no field match, `parse_prompt` raises
`NoFieldsFound` for `nm`, with a message naming the offending record type. -/
theorem C7_noFields (mk : Str → Str → FieldDef) (prompt sec app nm body : Str)
    (ms1 ms2 : List (Str × Str))
    (happ : searchAppName prompt = some app)
    (hsec : sectionAfterMarker prompt = some sec)
    (hms : doctypeMatches (pyStrip sec) = ms1 ++ (nm, body) :: ms2)
    (h1 : ∀ m ∈ ms1, fieldMatches m.2 ≠ [])
    (h2 : fieldMatches body = []) :
    parseWith mk prompt = .error (.noFieldsFound nm) ∧
    message (.noFieldsFound nm) = ("No valid fields found for DocType: ").data ++ nm := by
  refine ⟨?_, rfl⟩
  rw [parseWith_eq_build mk prompt app sec happ hsec, hms,
    buildDoctypes_error_at mk ms1 nm body ms2 [] h1 h2]

theorem C7_noFields_witness :
    parseWith mkFieldAuto exEmptyBody = .error (.noFieldsFound (("Empty").data)) ∧
    message (.noFieldsFound (("Empty").data)) =
      ("No valid fields found for DocType: ").data ++ ("Empty").data :=
  C7_noFields mkFieldAuto exEmptyBody ((" Empty ()").data) (("x").data) (("Empty").data)
    ([] : Str) ([] : List (Str × Str)) ([] : List (Str × Str)) rfl rfl (by decide)
    (by simp) rfl

/-- C10: with the app name and marker present and every record-type match
having at least one field match, `parse_prompt` succeeds even when a
record-type name matches more than once; the returned map's keys are pairwise
distinct, the duplicated name occurs exactly once among them, and it is bound
to the field list built from the last textual occurrence of that name (the
Python dict assignment overwrites, so earlier occurrences' fields are
discarded). -/
theorem C10_duplicate_lastWins (mk : Str → Str → FieldDef) (prompt sec app n : Str)
    (mLast : Str × Str)
    (happ : searchAppName prompt = some app)
    (hsec : sectionAfterMarker prompt = some sec)
    (hall : ∀ m ∈ doctypeMatches (pyStrip sec), fieldMatches m.2 ≠ [])
    (hdup : 1 < ((doctypeMatches (pyStrip sec)).map Prod.fst).count n)
    (hlast : (doctypeMatches (pyStrip sec)).reverse.find? (fun m => m.1 == n) = some mLast) :
    (parseWith mk prompt).isOk = true ∧
    ∀ (app2 : Str) (dts : List (Str × List FieldDef)),
      parseWith mk prompt = .ok (app2, dts) →
      (dts.map Prod.fst).Nodup ∧
      (dts.map Prod.fst).count n = 1 ∧
      List.lookup n dts = some ((fieldMatches mLast.2).map fun q => mk q.1 q.2) := by
  rcases buildDoctypes_isOk mk _ hall [] with ⟨out, hbuild⟩
  have hmsne : doctypeMatches (pyStrip sec) ≠ [] := by
    intro he
    rw [he] at hdup
    simp at hdup
  have houtne : out ≠ [] := buildDoctypes_ne_nil mk _ out hbuild hmsne
  have hparse : parseWith mk prompt = .ok (app, out) := by
    rw [parseWith_eq_build mk prompt app sec happ hsec, hbuild]
    exact if_neg houtne
  constructor
  · rw [hparse]
    rfl
  · intro app2 dts h2
    rw [hparse, Except.ok.injEq, Prod.mk.injEq] at h2
    obtain ⟨rfl, rfl⟩ := h2
    have hnodup : (out.map Prod.fst).Nodup :=
      buildDoctypes_nodup mk _ [] out hbuild (by simp)
    have hlook : List.lookup n out =
        some ((fieldMatches mLast.2).map fun q => mk q.1 q.2) := by
      rw [buildDoctypes_lookup mk _ [] out hbuild n, hlast]
    exact ⟨hnodup, countOneOfNodupMem _ n hnodup (lookup_some_keys out n _ hlook), hlook⟩

theorem C10_duplicate_witness : (parseWith mkFieldBench exDup).isOk = true :=
  (C10_duplicate_lastWins mkFieldBench exDup ((" Ab (a: Data), Ab (b: Data)").data)
    (("x").data) (("Ab").data) ((("Ab").data), (("b: Data").data)) rfl rfl
    (by decide) (by decide) (by decide)).1
